import Mathlib

/-
Verification of the core subsystems of the Open-Catalyst-Project repository
slice: the sharded LMDB dataset index (`ocpmodels/datasets/trajectory_lmdb.py`),
the streaming metric evaluator (`ocpmodels/modules/evaluator.py`) and the
batched L-BFGS relaxation optimizer
(`src/fairchem/core/common/relaxation/optimizers/lbfgs_torch.py`).

Each Python function is shallowly embedded as a Lean function over exact
arithmetic (ℕ/ℤ/ℚ for the dataset and evaluator, ℝ for the optimizer's
geometry, with `Real.sqrt` standing for the float 2-norm).  Machine-float
special values are modelled explicitly where a claim depends on them
(`Option ℝ` with `none` for a non-finite result of a division by zero).
-/

namespace TrajLmdb

/-! ## Sharded dataset index — `TrajectoryLmdbDataset`

`self._keylens` is the list of per-shard sample counts; `self._keylen_cumulative
= np.cumsum(self._keylens).tolist()` is its inclusive prefix-sum list.
`self._keys[i] = list(range(keylens[i]))` is shard `i`'s key list. -/

/-- `np.cumsum(lens).tolist()`: inclusive prefix sums, same length as `lens`. -/
def cumsum : List ℕ → List ℕ
  | [] => []
  | l :: ls => l :: (cumsum ls).map (fun c => l + c)

/-- `__len__`: `sum(self._keylens)` (lines 71-72). -/
def length (lens : List ℕ) : ℕ := lens.sum

/-- Position of the first list entry strictly exceeding `idx`, if any. -/
def scanFirst (idx : ℕ) : List ℕ → Option ℕ
  | [] => none
  | c :: cs => if idx < c then some 0 else (scanFirst idx cs).map (· + 1)

/-- The scan of `__getitem__` lines 76-80: `db_idx` is the index of the first
cumulative count strictly exceeding `idx`, and `0` if no entry exceeds it
(the loop then finishes without `break`, leaving the initial `db_idx = 0`). -/
def findShard (cum : List ℕ) (idx : ℕ) : ℕ := (scanFirst idx cum).getD 0

/-- `__getitem__` lines 82-86: resolve a global index to `(db_idx, el_idx)`.
`el_idx` is kept in ℤ because the Python subtraction is over ints and is
followed by the `assert el_idx >= 0`. -/
def resolve (lens : List ℕ) (idx : ℕ) : ℕ × ℤ :=
  let cum := cumsum lens
  let d := findShard cum idx
  let e : ℤ := if d = 0 then (idx : ℤ) else (idx : ℤ) - (cum.getD (d - 1) 0 : ℤ)
  (d, e)

/-- The distinct failure modes of `__getitem__` after the resolution scan. -/
inductive GetErr where
  | assertFail     -- `assert el_idx >= 0` fails
  | keyIndexError  -- `self._keys[db_idx][el_idx]` raises IndexError
  | dbMissing      -- the LMDB get returns no record for the key
  deriving DecidableEq, Repr

/-- `__getitem__` lines 88-101, with the shard stores abstracted as
`db : shard → key → Option record` and the optional user transform applied
to the decoded record.  `self._keys[d]` is `list(range(lens[d]))`. -/
def getItem {α : Type} (lens : List ℕ) (db : ℕ → ℕ → Option α)
    (transform : α → α) (idx : ℕ) : Except GetErr α :=
  let r := resolve lens idx
  if 0 ≤ r.2 then
    match (List.range (lens.getD r.1 0)).get? r.2.toNat with
    | none => .error .keyIndexError
    | some key =>
      match db r.1 key with
      | none => .error .dbMissing
      | some rec0 => .ok (transform rec0)
  else .error .assertFail

/-- The inverse direction of the index map: a `(shard, local)` pair flattens
to the global index `sum of the lengths of the shards before it + local`. -/
def flatten (lens : List ℕ) (d l : ℕ) : ℕ := (lens.take d).sum + l

/-- Recursive restatement of the resolution scan, used to drive inductions. -/
def resolveRec : List ℕ → ℕ → ℕ × ℕ
  | [], idx => (0, idx)
  | l :: ls, idx =>
    if idx < l then (0, idx)
    else
      let r := resolveRec ls (idx - l)
      (r.1 + 1, r.2)

lemma cumsum_length (lens : List ℕ) : (cumsum lens).length = lens.length := by
  induction lens with
  | nil => rfl
  | cons l ls ih => simp [cumsum, ih]

lemma mem_cumsum_le_sum (lens : List ℕ) : ∀ c ∈ cumsum lens, c ≤ lens.sum := by
  induction lens with
  | nil => simp [cumsum]
  | cons l ls ih =>
    simp only [cumsum, List.mem_cons, List.mem_map, List.sum_cons]
    rintro c (rfl | ⟨a, ha, rfl⟩)
    · omega
    · have := ih a ha; omega

lemma scanFirst_eq_none (idx : ℕ) (xs : List ℕ) (h : ∀ c ∈ xs, c ≤ idx) :
    scanFirst idx xs = none := by
  induction xs with
  | nil => rfl
  | cons c cs ih =>
    have hc := h c (by simp)
    simp only [scanFirst, if_neg (by omega : ¬ idx < c)]
    rw [ih (fun d hd => h d (by simp [hd]))]
    rfl

lemma scanFirst_map_add (l idx : ℕ) (hl : l ≤ idx) (xs : List ℕ) :
    scanFirst idx (xs.map (fun c => l + c)) = scanFirst (idx - l) xs := by
  induction xs with
  | nil => rfl
  | cons c cs ih =>
    simp only [List.map_cons, scanFirst]
    by_cases h : idx < l + c
    · rw [if_pos h, if_pos (by omega)]
    · rw [if_neg h, if_neg (by omega), ih]

lemma scanFirst_isSome (idx : ℕ) (lens : List ℕ) (h : idx < lens.sum) :
    ∃ j, scanFirst idx (cumsum lens) = some j := by
  induction lens generalizing idx with
  | nil => simp at h
  | cons l ls ih =>
    simp only [cumsum, scanFirst]
    by_cases hl : idx < l
    · exact ⟨0, by rw [if_pos hl]⟩
    · rw [if_neg hl, scanFirst_map_add l idx (by omega)]
      obtain ⟨j, hj⟩ := ih (idx - l) (by simp only [List.sum_cons] at h; omega)
      exact ⟨j + 1, by rw [hj]; rfl⟩

lemma scanFirst_lt_length (idx : ℕ) (xs : List ℕ) (j : ℕ)
    (h : scanFirst idx xs = some j) : j < xs.length := by
  induction xs generalizing j with
  | nil => simp [scanFirst] at h
  | cons c cs ih =>
    simp only [scanFirst] at h
    by_cases hc : idx < c
    · rw [if_pos hc] at h
      simp only [Option.some.injEq] at h
      simp only [List.length_cons]
      omega
    · rw [if_neg hc] at h
      cases hs : scanFirst idx cs with
      | none => rw [hs] at h; simp at h
      | some j' =>
        rw [hs] at h
        simp only [Option.map_some', Option.some.injEq] at h
        have := ih j' hs
        simp only [List.length_cons]
        omega

lemma getD_map_add (l : ℕ) (xs : List ℕ) (n : ℕ) (h : n < xs.length) :
    (xs.map (fun c => l + c)).getD n 0 = l + xs.getD n 0 := by
  induction xs generalizing n with
  | nil => simp at h
  | cons a as ih =>
    cases n with
    | zero => rfl
    | succ m =>
      simp only [List.map_cons, List.getD_cons_succ]
      exact ih m (by simpa using h)

/-- On indices inside the dataset, the code's scan-and-subtract resolution
equals the simple recursive resolution. -/
lemma resolve_eq_resolveRec (lens : List ℕ) (idx : ℕ) (h : idx < lens.sum) :
    resolve lens idx = ((resolveRec lens idx).1, ((resolveRec lens idx).2 : ℤ)) := by
  induction lens generalizing idx with
  | nil => simp at h
  | cons l ls ih =>
    by_cases hl : idx < l
    · simp [resolve, findShard, cumsum, scanFirst, if_pos hl, resolveRec]
    · have hle : l ≤ idx := by omega
      have hsum : idx - l < ls.sum := by simp only [List.sum_cons] at h; omega
      obtain ⟨j, hj⟩ := scanFirst_isSome (idx - l) ls hsum
      have houter : scanFirst idx (cumsum (l :: ls)) = some (j + 1) := by
        simp only [cumsum, scanFirst, if_neg hl, scanFirst_map_add l idx hle, hj,
          Option.map_some']
      have hrec := ih (idx - l) hsum
      have hres : resolve ls (idx - l)
          = (j, if j = 0 then ((idx - l : ℕ) : ℤ)
                else ((idx - l : ℕ) : ℤ) - ((cumsum ls).getD (j - 1) 0 : ℤ)) := by
        simp only [resolve, findShard, hj, Option.getD_some]
      rw [hres] at hrec
      have h1 : (resolveRec ls (idx - l)).1 = j := (congrArg Prod.fst hrec).symm
      have h2 : ((resolveRec ls (idx - l)).2 : ℤ)
          = if j = 0 then ((idx - l : ℕ) : ℤ)
            else ((idx - l : ℕ) : ℤ) - ((cumsum ls).getD (j - 1) 0 : ℤ) :=
        (congrArg Prod.snd hrec).symm
      have hstep : resolveRec (l :: ls) idx
          = ((resolveRec ls (idx - l)).1 + 1, (resolveRec ls (idx - l)).2) := by
        simp only [resolveRec, if_neg hl]
      rw [hstep]
      simp only [resolve, findShard, houter, Option.getD_some, Nat.add_sub_cancel,
        if_neg (Nat.succ_ne_zero j), h1]
      refine Prod.ext rfl ?_
      show (idx : ℤ) - ((cumsum (l :: ls)).getD j 0 : ℤ) = _
      cases j with
      | zero =>
        have hc0 : (cumsum (l :: ls)).getD 0 0 = l := rfl
        rw [hc0, h2]
        simp only [eq_self_iff_true, if_true]
        omega
      | succ j' =>
        have hlen : j' < (cumsum ls).length := by
          have := scanFirst_lt_length (idx - l) (cumsum ls) (j' + 1) hj
          omega
        have hget : (cumsum (l :: ls)).getD (j' + 1) 0 = l + (cumsum ls).getD j' 0 := by
          simp only [cumsum, List.getD_cons_succ]
          exact getD_map_add l (cumsum ls) j' hlen
        rw [hget, h2]
        simp only [if_neg (Nat.succ_ne_zero j'), Nat.add_sub_cancel]
        omega

lemma resolveRec_spec (lens : List ℕ) (idx : ℕ) (h : idx < lens.sum) :
    (resolveRec lens idx).1 < lens.length ∧
    (resolveRec lens idx).2 < lens.getD (resolveRec lens idx).1 0 ∧
    flatten lens (resolveRec lens idx).1 (resolveRec lens idx).2 = idx := by
  induction lens generalizing idx with
  | nil => simp at h
  | cons l ls ih =>
    by_cases hl : idx < l
    · simp only [resolveRec, if_pos hl, flatten, List.take_zero, List.sum_nil,
        List.getD_cons_zero, List.length_cons]
      exact ⟨Nat.succ_pos _, hl, by omega⟩
    · have hsum : idx - l < ls.sum := by simp only [List.sum_cons] at h; omega
      obtain ⟨ihd, ihl, ihf⟩ := ih (idx - l) hsum
      simp only [resolveRec, if_neg hl, flatten, List.take_succ_cons, List.sum_cons,
        List.getD_cons_succ, List.length_cons]
      refine ⟨by omega, ihl, ?_⟩
      simp only [flatten] at ihf
      omega

lemma resolveRec_flatten (lens : List ℕ) (d l : ℕ) (hd : d < lens.length)
    (hl : l < lens.getD d 0) :
    flatten lens d l < lens.sum ∧ resolveRec lens (flatten lens d l) = (d, l) := by
  induction lens generalizing d with
  | nil => simp at hd
  | cons a as ih =>
    cases d with
    | zero =>
      simp only [List.getD_cons_zero] at hl
      simp only [flatten, List.take_zero, List.sum_nil, Nat.zero_add, List.sum_cons,
        resolveRec, if_pos hl]
      exact ⟨by omega, by trivial⟩
    | succ d' =>
      simp only [List.getD_cons_succ] at hl
      obtain ⟨ihs, ihr⟩ := ih d' (by simpa using hd) hl
      have hfl : flatten (a :: as) (d' + 1) l = a + flatten as d' l := by
        simp only [flatten, List.take_succ_cons, List.sum_cons]
        omega
      constructor
      · simp only [hfl, List.sum_cons]; omega
      · rw [hfl]
        simp only [resolveRec, if_neg (by omega : ¬ a + flatten as d' l < a),
          Nat.add_sub_cancel_left, ihr]

/-- C4: for every dataset with shard lengths `lens` and every global index
`idx < length()`, `get` resolves `idx` to exactly one `(shardIndex, localIndex)`
pair with `0 ≤ localIndex < lens[shardIndex]` by taking the first cumulative
count strictly exceeding `idx`, and the map `idx ↦ (shard, local)` is a
bijection between `[0, length())` and the set of valid `(shard, local)` pairs
(both round trips through `flatten` are identities). -/
theorem getitem_resolution_bijective (lens : List ℕ) :
    (∀ idx, idx < length lens →
      (resolve lens idx).1 < lens.length ∧
      0 ≤ (resolve lens idx).2 ∧
      (resolve lens idx).2.toNat < lens.getD (resolve lens idx).1 0 ∧
      flatten lens (resolve lens idx).1 (resolve lens idx).2.toNat = idx) ∧
    (∀ d l, d < lens.length → l < lens.getD d 0 →
      flatten lens d l < length lens ∧
      resolve lens (flatten lens d l) = (d, (l : ℤ))) := by
  constructor
  · intro idx h
    have h' : idx < lens.sum := h
    obtain ⟨hd, hl, hf⟩ := resolveRec_spec lens idx h'
    rw [resolve_eq_resolveRec lens idx h']
    simp only [Int.toNat_natCast]
    exact ⟨hd, Int.natCast_nonneg _, hl, hf⟩
  · intro d l hd hl
    obtain ⟨hs, hr⟩ := resolveRec_flatten lens d l hd hl
    refine ⟨hs, ?_⟩
    rw [resolve_eq_resolveRec lens _ hs, hr]

theorem getitem_resolution_bijective_witness :
    (3 < length [2, 3] ∧
      ((resolve [2, 3] 3).1 < [2, 3].length ∧
        0 ≤ (resolve [2, 3] 3).2 ∧
        (resolve [2, 3] 3).2.toNat < [2, 3].getD (resolve [2, 3] 3).1 0 ∧
        flatten [2, 3] (resolve [2, 3] 3).1 (resolve [2, 3] 3).2.toNat = 3)) ∧
    (1 < [2, 3].length ∧ 2 < [2, 3].getD 1 0 ∧
      (flatten [2, 3] 1 2 < length [2, 3] ∧
        resolve [2, 3] (flatten [2, 3] 1 2) = (1, (2 : ℤ)))) :=
  ⟨⟨by decide, (getitem_resolution_bijective [2, 3]).1 3 (by decide)⟩,
    ⟨by decide, by decide,
      (getitem_resolution_bijective [2, 3]).2 1 2 (by decide) (by decide)⟩⟩

/-- C9: for a global index `idx ≥ length()`, `__getitem__` performs no bounds
check: no cumulative count exceeds `idx`, so the scan leaves `db_idx = 0` with
`el_idx = idx`; the `assert el_idx >= 0` still passes, and the access fails
only at the lookup `self._keys[0][el_idx]` (an IndexError), so `get` never
returns a decoded record for such an index. -/
theorem getitem_out_of_range {α : Type} (lens : List ℕ) (db : ℕ → ℕ → Option α)
    (transform : α → α) (idx : ℕ) (hne : lens ≠ []) (h : length lens ≤ idx) :
    resolve lens idx = (0, (idx : ℤ)) ∧ 0 ≤ (resolve lens idx).2 ∧
    getItem lens db transform idx = .error .keyIndexError := by
  have hnone : scanFirst idx (cumsum lens) = none :=
    scanFirst_eq_none idx _ (fun c hc => le_trans (mem_cumsum_le_sum lens c hc) h)
  have hres : resolve lens idx = (0, (idx : ℤ)) := by
    simp [resolve, findShard, hnone]
  refine ⟨hres, by rw [hres]; exact Int.natCast_nonneg idx, ?_⟩
  have hhead : lens.getD 0 0 ≤ lens.sum := by
    cases lens with
    | nil => exact absurd rfl hne
    | cons a as => simp only [List.getD_cons_zero, List.sum_cons]; omega
  have hkey : (List.range (lens.getD 0 0)).get? idx = none := by
    rw [List.get?_eq_none, List.length_range]
    exact le_trans hhead h
  simp only [getItem, hres, Int.natCast_nonneg, if_pos, Int.toNat_natCast, hkey]

theorem getitem_out_of_range_witness :
    (([2, 3] : List ℕ) ≠ [] ∧ length [2, 3] ≤ 9) ∧
    (resolve [2, 3] 9 = (0, (9 : ℤ)) ∧ 0 ≤ (resolve [2, 3] 9).2 ∧
      getItem [2, 3] (fun a b => some (a + b)) id 9 = .error .keyIndexError) :=
  ⟨⟨by decide, by decide⟩,
    getitem_out_of_range [2, 3] (fun a b => some (a + b)) id 9 (by decide) (by decide)⟩

end TrajLmdb

namespace Evaluator

/-! ## Streaming metric evaluator — `ocpmodels/modules/evaluator.py`

Energy tensors are `List ℚ` (exact stand-in for float values).  A metric
function returns a `{metric, total, numel}` record; the per-key accumulator
additionally allows `metric = None` before the first merge, exactly as the
freshly initialized dict entry of `Evaluator.update`. -/

/-- The record returned by a metric function. -/
structure Stat where
  metric : ℚ
  total : ℚ
  numel : ℕ
  deriving DecidableEq, Repr

/-- A per-key accumulator entry of the metrics dictionary. -/
structure Acc where
  metric : Option ℚ
  total : ℚ
  numel : ℕ
  deriving DecidableEq, Repr

/-- The metrics dictionary: insertion-ordered key/accumulator pairs. -/
abbrev Metrics := List (String × Acc)

def getKey (ms : Metrics) (k : String) : Option Acc :=
  (ms.find? (fun p => p.1 == k)).map (fun p => p.2)

/-- Write a key: replace the value at an existing key, else append at the end
(Python dict assignment preserves insertion order). -/
def setKey (ms : Metrics) (k : String) (v : Acc) : Metrics :=
  match ms with
  | [] => [(k, v)]
  | (k', v') :: rest =>
    if k' == k then (k, v) :: rest else (k', v') :: setKey rest k v

/-- `Evaluator.update` (lines 179-204) for a dict-valued `stat`: a missing key
is first initialized to `{metric: None, total: 0, numel: 0}`, then
`total += stat.total`, `numel += stat.numel`, `metric = total / numel`
(ℚ division; at `numel = 0` the Python division would raise, which no claim
exercises). -/
def update (k : String) (stat : Stat) (ms : Metrics) : Metrics :=
  let m0 := (getKey ms k).getD ⟨none, 0, 0⟩
  let total := m0.total + stat.total
  let numel := m0.numel + stat.numel
  setKey ms k ⟨some (total / (numel : ℚ)), total, numel⟩

/-- `absolute_error` (lines 367-373): `error = abs(target - prediction)`,
`metric = mean(error)`, `total = sum(error)`, `numel = prediction.numel()`. -/
def absolute_error (prediction target : List ℚ) : Stat :=
  let error := List.zipWith (fun t p => |t - p|) target prediction
  ⟨error.sum / (error.length : ℚ), error.sum, prediction.length⟩

/-- `squared_error` (lines 376-382). -/
def squared_error (prediction target : List ℚ) : Stat :=
  let error := List.zipWith (fun t p => (t - p) ^ 2) target prediction
  ⟨error.sum / (error.length : ℚ), error.sum, prediction.length⟩

/-- `energy_mae` (lines 207-208). -/
def energy_mae (prediction target : List ℚ) : Stat := absolute_error prediction target

/-- `energy_mse` (lines 211-212). -/
def energy_mse (prediction target : List ℚ) : Stat := squared_error prediction target

/-- `energy_within_threshold` (lines 295-308): with `e_thresh = 0.02`, count
the systems whose absolute energy error is strictly below the threshold;
`total = success`, `numel = target.energy.size(0)`, `metric = success/total`. -/
def energy_within_threshold (prediction target : List ℚ) : Stat :=
  let error_energy := List.zipWith (fun t p => |t - p|) target prediction
  let success := (error_energy.filter (fun e => e < 1 / 50)).length
  let total := target.length
  ⟨(success : ℚ) / (total : ℚ), (success : ℚ), total⟩

/-- `Evaluator.eval` (lines 160-177) for task `"is2re"` with
`atomic_numbers = None`: run the task's metric functions
`["energy_mae", "energy_mse", "energy_within_threshold"]` in registry order,
merging each result into the metrics dict via `update` and returning that same
dict.  The source first asserts that `energy` is present on both inputs with
equal shapes; the claims settled here only exercise equal-shape inputs. -/
def evalIs2re (prediction target : List ℚ) (prev : Metrics) : Metrics :=
  update "energy_within_threshold" (energy_within_threshold prediction target)
    (update "energy_mse" (energy_mse prediction target)
      (update "energy_mae" (energy_mae prediction target) prev))

/-- A sequence of `eval` calls that all omit `prev_metrics`: the default
argument `{}` is a single dict object created once, mutated in place by
`update` and returned by `eval`, so the calls thread one shared accumulator,
which the fold makes explicit. -/
def evalCallsOmittingPrev (batches : List (List ℚ × List ℚ)) : Metrics :=
  batches.foldl (fun ms pt => evalIs2re pt.1 pt.2 ms) []

lemma getKey_setKey_self (ms : Metrics) (k : String) (v : Acc) :
    getKey (setKey ms k v) k = some v := by
  induction ms with
  | nil => simp [setKey, getKey, List.find?]
  | cons p rest ih =>
    by_cases h : p.1 == k
    · simp [setKey, h, getKey, List.find?]
    · simpa [setKey, h, getKey, List.find?] using ih

lemma getKey_setKey_ne (ms : Metrics) (k k' : String) (v : Acc) (h : k ≠ k') :
    getKey (setKey ms k v) k' = getKey ms k' := by
  have hkk : (k == k') = false := by simpa using h
  induction ms with
  | nil => simp [setKey, getKey, List.find?, hkk]
  | cons p rest ih =>
    by_cases hp : p.1 == k
    · have hp' : p.1 = k := by simpa using hp
      simp [setKey, hp, getKey, List.find?, hp', hkk, h]
    · by_cases hq : p.1 == k'
      · simp [setKey, hp, getKey, List.find?, hq]
      · simpa [setKey, hp, getKey, List.find?, hq] using ih

lemma getKey_update_self (k : String) (stat : Stat) (ms : Metrics) :
    getKey (update k stat ms) k =
      some ⟨some ((((getKey ms k).getD ⟨none, 0, 0⟩).total + stat.total) /
              ((((getKey ms k).getD ⟨none, 0, 0⟩).numel + stat.numel : ℕ) : ℚ)),
            ((getKey ms k).getD ⟨none, 0, 0⟩).total + stat.total,
            ((getKey ms k).getD ⟨none, 0, 0⟩).numel + stat.numel⟩ := by
  simp only [update]
  exact getKey_setKey_self ms k _

lemma getKey_update_ne (k k' : String) (stat : Stat) (ms : Metrics) (h : k ≠ k') :
    getKey (update k stat ms) k' = getKey ms k' := by
  simp only [update]
  exact getKey_setKey_ne ms k k' _ h

/-- After one `eval` call, the `energy_mae` accumulator holds the previous
totals plus the batch's `absolute_error` totals. -/
lemma getKey_evalIs2re_mae (p t : List ℚ) (ms : Metrics) :
    getKey (evalIs2re p t ms) "energy_mae" =
      some ⟨some ((((getKey ms "energy_mae").getD ⟨none, 0, 0⟩).total +
              (absolute_error p t).total) /
              ((((getKey ms "energy_mae").getD ⟨none, 0, 0⟩).numel +
                (absolute_error p t).numel : ℕ) : ℚ)),
            ((getKey ms "energy_mae").getD ⟨none, 0, 0⟩).total +
              (absolute_error p t).total,
            ((getKey ms "energy_mae").getD ⟨none, 0, 0⟩).numel +
              (absolute_error p t).numel⟩ := by
  unfold evalIs2re
  rw [getKey_update_ne _ _ _ _ (by decide),
    getKey_update_ne _ _ _ _ (by decide)]
  exact getKey_update_self "energy_mae" (energy_mae p t) ms

end Evaluator

namespace Evaluator

/-- C7: for target energies `[1.0, 2.0]` and predicted energies `[1.01, 2.03]`
with the fixed `0.02` threshold, `energy_within_threshold` counts exactly the
first sample as a success and returns `{total: 1, numel: 2, metric: 0.5}`. -/
theorem energy_within_threshold_concrete :
    energy_within_threshold [101 / 100, 203 / 100] [1, 2] = ⟨1 / 2, 1, 2⟩ := by
  have e1 : |(1 : ℚ) - 101 / 100| = 1 / 100 := by
    rw [abs_of_nonpos (by norm_num)]; norm_num
  have e2 : |(2 : ℚ) - 203 / 100| = 3 / 100 := by
    rw [abs_of_nonpos (by norm_num)]; norm_num
  have hlt1 : ((1 : ℚ) / 100 < 1 / 50) := by norm_num
  have hlt2 : ¬ ((3 : ℚ) / 100 < 1 / 50) := by norm_num
  simp [energy_within_threshold, e1, e2, hlt1, hlt2, List.filter]
  norm_num

/-- C5: merging a `{total, numel}` stat into an accumulator `(t1, n1)` yields
`total = t1 + t2`, `count = n1 + n2` and `metric = total / count`; and
accumulating two batches of raw data sequentially through
`update ∘ absolute_error` equals the single-pass accumulation of the
concatenated raw data. -/
theorem update_merge_and_split_invariant :
    (∀ (k : String) (ms : Metrics) (m0 : Option ℚ) (t1 t2 : ℚ) (n1 n2 : ℕ) (sm : ℚ),
      getKey ms k = some ⟨m0, t1, n1⟩ →
      getKey (update k ⟨sm, t2, n2⟩ ms) k =
        some ⟨some ((t1 + t2) / ((n1 + n2 : ℕ) : ℚ)), t1 + t2, n1 + n2⟩) ∧
    (∀ (k : String) (p1 t1 p2 t2 : List ℚ), p1.length = t1.length →
      update k (absolute_error p2 t2) (update k (absolute_error p1 t1) []) =
        update k (absolute_error (p1 ++ p2) (t1 ++ t2)) []) := by
  constructor
  · intro k ms m0 t1 t2 n1 n2 sm h
    rw [getKey_update_self, h]
    simp
  · intro k p1 t1 p2 t2 h
    have hzip : List.zipWith (fun t p => |t - p|) (t1 ++ t2) (p1 ++ p2)
        = List.zipWith (fun t p => |t - p|) t1 p1 ++
            List.zipWith (fun t p => |t - p|) t2 p2 :=
      List.zipWith_append _ _ _ _ _ h.symm
    simp [update, getKey, setKey, absolute_error, hzip, List.sum_append,
      List.length_append, List.find?, add_assoc]

theorem update_merge_and_split_invariant_witness :
    (getKey [("k", ⟨none, 3, 2⟩)] "k" = some ⟨none, 3, 2⟩ ∧
      getKey (update "k" ⟨5, 5, 3⟩ [("k", ⟨none, 3, 2⟩)]) "k" =
        some ⟨some ((3 + 5) / ((2 + 3 : ℕ) : ℚ)), 3 + 5, 2 + 3⟩) ∧
    (([(1 : ℚ), 2].length = [(3 : ℚ), 5].length) ∧
      update "m" (absolute_error [2] [1]) (update "m" (absolute_error [1, 2] [3, 5]) []) =
        update "m" (absolute_error ([1, 2] ++ [2]) ([3, 5] ++ [1])) []) :=
  ⟨⟨by simp [getKey, List.find?],
      update_merge_and_split_invariant.1 "k" [("k", ⟨none, 3, 2⟩)]
        none 3 5 2 3 5 (by simp [getKey, List.find?])⟩,
    ⟨by decide,
      update_merge_and_split_invariant.2 "m" [1, 2] [3, 5] [2] [1] (by decide)⟩⟩

/-- C10: `eval` mutates and returns the shared default `prev_metrics` dict, so
of two consecutive `eval` calls that both omit `prev_metrics`, the second
call's `energy_mae` accumulator contains the totals and counts of both calls'
batches (not just its own), hence differs from a fresh single-call result
whenever the first batch was nonempty. -/
theorem eval_default_prev_metrics_accumulates (p1 t1 p2 t2 : List ℚ) :
    getKey (evalCallsOmittingPrev [(p1, t1), (p2, t2)]) "energy_mae" =
      some ⟨some (((absolute_error p1 t1).total + (absolute_error p2 t2).total) /
              ((p1.length + p2.length : ℕ) : ℚ)),
            (absolute_error p1 t1).total + (absolute_error p2 t2).total,
            p1.length + p2.length⟩ ∧
    (0 < p1.length →
      getKey (evalCallsOmittingPrev [(p1, t1), (p2, t2)]) "energy_mae" ≠
        getKey (evalCallsOmittingPrev [(p2, t2)]) "energy_mae") := by
  have hfold2 : evalCallsOmittingPrev [(p1, t1), (p2, t2)]
      = evalIs2re p2 t2 (evalIs2re p1 t1 []) := rfl
  have hfold1 : evalCallsOmittingPrev [(p2, t2)] = evalIs2re p2 t2 [] := rfl
  have h1 := getKey_evalIs2re_mae p1 t1 []
  have h0 : getKey ([] : Metrics) "energy_mae" = none := rfl
  rw [h0] at h1
  simp only [Option.getD_none, absolute_error, zero_add] at h1
  have h2 := getKey_evalIs2re_mae p2 t2 (evalIs2re p1 t1 [])
  rw [h1] at h2
  simp only [Option.getD_some, absolute_error] at h2
  have hone := getKey_evalIs2re_mae p2 t2 []
  rw [h0] at hone
  simp only [Option.getD_none, absolute_error, zero_add] at hone
  constructor
  · rw [hfold2, h2]
    simp [absolute_error]
  · intro hp heq
    rw [hfold2, h2, hfold1, hone] at heq
    simp only [Option.some.injEq, Acc.mk.injEq] at heq
    omega

theorem eval_default_prev_metrics_accumulates_witness :
    (getKey (evalCallsOmittingPrev [([(1 : ℚ)], [(2 : ℚ)]), ([(4 : ℚ)], [(5 : ℚ)])])
        "energy_mae" =
      some ⟨some (((absolute_error [(1 : ℚ)] [2]).total +
              (absolute_error [(4 : ℚ)] [5]).total) /
              (([(1 : ℚ)].length + [(4 : ℚ)].length : ℕ) : ℚ)),
            (absolute_error [(1 : ℚ)] [2]).total + (absolute_error [(4 : ℚ)] [5]).total,
            [(1 : ℚ)].length + [(4 : ℚ)].length⟩ ∧
      (0 < [(1 : ℚ)].length →
        getKey (evalCallsOmittingPrev [([(1 : ℚ)], [(2 : ℚ)]), ([(4 : ℚ)], [(5 : ℚ)])])
            "energy_mae" ≠
          getKey (evalCallsOmittingPrev [([(4 : ℚ)], [(5 : ℚ)])]) "energy_mae")) ∧
    0 < [(1 : ℚ)].length :=
  ⟨eval_default_prev_metrics_accumulates [1] [2] [4] [5], by decide⟩

end Evaluator

namespace LBFGSTorch

noncomputable section

/-! ## Batched L-BFGS optimizer —
`src/fairchem/core/common/relaxation/optimizers/lbfgs_torch.py`

Geometry over ℝ: an atom position, force or displacement row is a `Vec3`; a
batch is a flat `List Vec3` plus the per-atom system-index list
`batch_indices` and the per-system atom-count list `natoms`.  `Real.sqrt`
stands for the float row 2-norm.  Real division follows the Lean convention
`1 / 0 = 0` inside the running state; the one place where the claims depend
on the float behaviour of a division by zero (the `rho` history entry) is
additionally modelled exactly in `rhoAppended` below, with `none` standing
for a non-finite float. -/

abbrev Vec3 := ℝ × ℝ × ℝ

def v3add (a b : Vec3) : Vec3 := (a.1 + b.1, a.2.1 + b.2.1, a.2.2 + b.2.2)

def v3sub (a b : Vec3) : Vec3 := (a.1 - b.1, a.2.1 - b.2.1, a.2.2 - b.2.2)

def v3neg (a : Vec3) : Vec3 := (-a.1, -a.2.1, -a.2.2)

def v3smul (c : ℝ) (a : Vec3) : Vec3 := (c * a.1, c * a.2.1, c * a.2.2)

def dot3 (a b : Vec3) : ℝ := a.1 * b.1 + a.2.1 * b.2.1 + a.2.2 * b.2.2

/-- `torch.norm(row)`: the Euclidean norm of one row. -/
def norm3 (a : Vec3) : ℝ := Real.sqrt (a.1 ^ 2 + a.2.1 ^ 2 + a.2.2 ^ 2)

def v3maxAbs (a : Vec3) : ℝ := max |a.1| (max |a.2.1| |a.2.2|)

/-- `torch_scatter.scatter(vals, bidx, reduce="sum")` over `k` systems
(output zero-initialized, so systems with no atoms read 0). -/
def segSum (bidx : List ℕ) (vals : List ℝ) (k : ℕ) : List ℝ :=
  (List.range k).map fun j =>
    (((bidx.zip vals).filter (fun q => q.1 == j)).map (fun q => q.2)).sum

/-- `torch_scatter.scatter(vals, bidx, reduce="max")` over `k` systems
(output zero-initialized). -/
def segMax (bidx : List ℕ) (vals : List ℝ) (k : ℕ) : List ℝ :=
  (List.range k).map fun j =>
    (((bidx.zip vals).filter (fun q => q.1 == j)).map (fun q => q.2)).foldl max 0

/-- Broadcast a per-system tensor back to per-atom: `xs[batch_indices]`. -/
def gather (xs : List ℝ) (bidx : List ℕ) : List ℝ := bidx.map fun j => xs.getD j 0

/-- One model evaluation as served by the collaborating `OptimizableBatch`
(external interface: `get_potential_energies`, `get_forces`,
`get_max_forces`): per-system potential energies, per-atom forces (possibly
augmented beyond the real atoms) and per-system max free-atom force
magnitudes. -/
structure Prediction where
  energies : List ℝ
  forces : List Vec3
  maxForces : List ℝ

/-- The optimizable batch: `batch_indices`, per-system atom counts, and the
model predictions indexed by the evaluation count, so that noisy,
call-dependent models are representable. -/
structure Optimizable where
  bidx : List ℕ
  natoms : List ℕ
  predict : ℕ → List Vec3 → Prediction

/-- The `LBFGS.__init__` configuration (`H0 = 1.0 / alpha`); `trajDir` records
whether `traj_dir` was supplied. -/
structure Params where
  maxstep : ℝ
  memory : ℕ
  damping : ℝ
  alpha : ℝ
  saveFull : Bool
  trajDir : Bool
  trajNames : List String
  maskConverged : Bool

/-- File-system events on the trajectory writers during one `run`. -/
inductive Event where
  | openW (name : String)
  | write (name : String)
  | close (name : String)
  | rename (name : String)
  deriving DecidableEq, Repr

/-- The mutable state threaded through `run`'s while loop: current positions,
the monotone per-atom converged mask, the `converged` flag, the `s`/`y`/`rho`
deques, the `r0`/`f0` snapshots (`None` before a successful step), the last
bound `(energy, forces)` locals of the loop body (`None` while unbound), the
trajectory events so far and the number of model evaluations. -/
structure LoopState where
  pos : List Vec3
  convMask : List Bool
  converged : Bool
  s : List (List Vec3)
  y : List (List Vec3)
  rho : List (List ℝ)
  r0 : Option (List Vec3)
  f0 : Option (List Vec3)
  lastEF : Option (List ℝ × List Vec3)
  events : List Event
  evalCount : ℕ

/-- `deque(maxlen = mem)` push: append right, evict the oldest entry beyond
capacity. -/
def pushHist {α : Type} (mem : ℕ) (h : List α) (x : α) : List α :=
  let g := h ++ [x]
  g.drop (g.length - mem)

/-- `set_positions` (lines 73-80): when `mask_converged`, the position rows of
atoms whose update-mask entry is false are replaced by 0.0
(`torch.where(update_mask.unsqueeze(1), positions, 0.0)`) — the `where` is
applied to the absolute positions handed in, not to a displacement.  The
float32 cast and the graph update are value-level no-ops here. -/
def set_positions (P : Params) (positions : List Vec3) (updateMask : List Bool) :
    List Vec3 :=
  if P.maskConverged then
    List.zipWith (fun m q => if m then q else ((0 : ℝ), (0 : ℝ), (0 : ℝ)))
      updateMask positions
  else positions

/-- `_determine_step` (lines 163-172): per-system max row norm, broadcast back
to atoms; scale each row by `min(longest, maxstep) / (longest + 1e-7)` and by
the damping factor. -/
def _determine_step (o : Optimizable) (P : Params) (dr : List Vec3) : List Vec3 :=
  let steplengths := dr.map norm3
  let longest_steps := gather (segMax o.bidx steplengths o.natoms.length) o.bidx
  let scale := longest_steps.map fun L => (L + 1e-7)⁻¹ * min L P.maxstep
  List.zipWith (fun v c => v3smul P.damping (v3smul c v)) dr scale

/-- `_batched_dot` (lines 174-177): per-system scatter-sum of the row-wise dot
products. -/
def _batched_dot (o : Optimizable) (x y : List Vec3) : List ℝ :=
  segSum o.bidx (List.zipWith dot3 x y) o.natoms.length

/-- The downward pass of the two-loop recursion (lines 204-206), processing
history indices `i-1, …, 0`; returns the updated `q` and the `alpha` rows
(entry `j` is `alpha[j]`). -/
def twoLoopDown (o : Optimizable) (s y : List (List Vec3)) (rho : List (List ℝ)) :
    ℕ → List Vec3 → List Vec3 × List (List ℝ)
  | 0, q => (q, [])
  | i + 1, q =>
    let a := List.zipWith (· * ·) (rho.getD i []) (_batched_dot o (s.getD i []) q)
    let q2 := List.zipWith v3sub q
      (List.zipWith v3smul (gather a o.bidx) (y.getD i []))
    let r := twoLoopDown o s y rho i q2
    (r.1, r.2 ++ [a])

/-- The upward pass of the two-loop recursion (lines 209-214), processing `n`
history indices starting at `j`. -/
def twoLoopUp (o : Optimizable) (s y : List (List Vec3)) (rho : List (List ℝ))
    (alphas : List (List ℝ)) : ℕ → ℕ → List Vec3 → List Vec3
  | 0, _, z => z
  | n + 1, j, z =>
    let beta := List.zipWith (· * ·) (rho.getD j []) (_batched_dot o (y.getD j []) z)
    let z2 := List.zipWith v3add z
      (List.zipWith (fun sv c => v3smul c sv) (s.getD j [])
        (List.zipWith (· - ·) (gather (alphas.getD j []) o.bidx) (gather beta o.bidx)))
    twoLoopUp o s y rho alphas n (j + 1) z2

/-- `step` (lines 179-226).  `run` always passes the current forces, so the
`forces is None` branch is dead at this call site and elided.  The histories
are appended before the degenerate-step check, exactly as in the source; the
early return leaves the positions and the `r0`/`f0` snapshots untouched.
The appended `rho` entry is `1 / dot` under Lean's `1 / 0 = 0` convention;
`rhoAppended` below models the same line with IEEE non-finiteness explicit,
and no theorem below depends on a `rho` value inside this state. -/
def step (o : Optimizable) (P : Params) (iteration : ℕ) (forces : List Vec3)
    (updateMask : List Bool) (st : LoopState) : LoopState :=
  let r := st.pos
  let hist :=
    if 0 < iteration then
      let s0 := List.zipWith v3sub r (st.r0.getD [])
      let y0 := (List.zipWith v3sub forces (st.f0.getD [])).map v3neg
      (pushHist P.memory st.s s0, pushHist P.memory st.y y0,
        pushHist P.memory st.rho ((_batched_dot o y0 s0).map (fun d => 1 / d)))
    else (st.s, st.y, st.rho)
  let loopmax := min P.memory iteration
  let q := forces.map v3neg
  let down := twoLoopDown o hist.1 hist.2.1 hist.2.2 loopmax q
  let z := down.1.map (v3smul (1 / P.alpha))
  let z2 := twoLoopUp o hist.1 hist.2.1 hist.2.2 down.2 loopmax 0 z
  let dr := _determine_step o P (z2.map v3neg)
  if (dr.map v3maxAbs).foldl max 0 < 1e-7 then
    { st with
      s := hist.1
      y := hist.2.1
      rho := hist.2.2 }
  else
    { st with
      pos := set_positions P (List.zipWith v3add r dr) updateMask
      s := hist.1
      y := hist.2.1
      rho := hist.2.2
      r0 := some r
      f0 := some forces }

/-- The `rho` entry appended by `step` lines 190-198, with the float division
modelled exactly: `1.0 / _batched_dot(y0, s0)` is computed per system with no
zero-denominator guard, so a zero segmented dot yields an IEEE infinity,
modelled as `none`. -/
def rhoAppended (o : Optimizable) (r r0 forces f0 : List Vec3) : List (Option ℝ) :=
  let s0 := List.zipWith v3sub r r0
  let y0 := (List.zipWith v3sub forces f0).map v3neg
  (_batched_dot o y0 s0).map fun d => if d = 0 then none else some (1 / d)

/-- `check_convergence` (lines 82-96): evaluate energies and forces, broadcast
the per-system max forces back to atoms and compare strictly against `fmax`.
The float64 cast of the forces is a value-level no-op. -/
def check_convergence (o : Optimizable) (fmax : ℝ) (evalIdx : ℕ)
    (pos : List Vec3) : List Bool × List ℝ × List Vec3 :=
  let pr := o.predict evalIdx pos
  let maxForcesAtoms := gather pr.maxForces o.bidx
  (maxForcesAtoms.map (fun m => decide (m < fmax)), pr.energies, pr.forces)

/-- `torch.split(xs, natoms.tolist())`. -/
def splitByCounts {α : Type} : List α → List ℕ → List (List α)
  | _, [] => []
  | xs, n :: ns => xs.take n :: splitByCounts (xs.drop n) ns

/-- `write` (lines 228-234): one snapshot per system whose update-mask chunk
starts true, or unconditionally when `save_full` is false. -/
def writeEvents (o : Optimizable) (P : Params) (updateMask : List Bool) : List Event :=
  (P.trajNames.zip (splitByCounts updateMask o.natoms)).filterMap fun nc =>
    if nc.2.headD false || !P.saveFull then some (Event.write nc.1) else none

/-- One iteration of the `while` body of `run` (lines 122-144): evaluate and
OR the new per-atom converged mask into the monotone mask, optionally write
trajectory snapshots, and take an L-BFGS step unless converged or on the last
budgeted iteration. -/
def runBody (o : Optimizable) (P : Params) (fmax : ℝ) (steps : ℕ)
    (iteration : ℕ) (st : LoopState) : LoopState :=
  let c := check_convergence o fmax st.evalCount st.pos
  let convMask := List.zipWith (fun a b => a || b) st.convMask c.1
  let conv := convMask.all (fun b => b)
  let updateMask := convMask.map (fun b => !b)
  let st1 : LoopState :=
    { st with
      convMask := convMask
      converged := conv
      lastEF := some (c.2.1, c.2.2)
      evalCount := st.evalCount + 1 }
  let st2 :=
    if P.trajDir = true ∧ (P.saveFull = true ∨ conv = true ∨
        (iteration : ℤ) = (steps : ℤ) - 1 ∨ iteration = 0) then
      { st1 with events := st1.events ++ writeEvents o P (updateMask.take st1.pos.length) }
    else st1
  if conv = false ∧ (iteration : ℤ) < (steps : ℤ) - 1 then
    step o P iteration c.2.2 updateMask st2
  else st2

/-- The `while iteration < steps and not converged` loop (line 122),
fuel-driven; `run` supplies `fuel = steps`, which bounds the iteration
count. -/
def runLoop (o : Optimizable) (P : Params) (fmax : ℝ) (steps : ℕ) :
    ℕ → ℕ → LoopState → LoopState
  | 0, _, st => st
  | fuel + 1, iteration, st =>
    if iteration < steps ∧ st.converged = false then
      runLoop o P fmax steps fuel (iteration + 1) (runBody o P fmax steps iteration st)
    else st

/-- The batch returned by `run`, with the last evaluated energies attached and
the forces truncated to the real atoms. -/
structure BatchOut where
  pos : List Vec3
  energy : List ℝ
  forces : List Vec3

inductive RunError where
  | unboundLocalEnergy
  deriving DecidableEq, Repr

structure RunResult where
  result : Except RunError BatchOut
  events : List Event
  evalCount : ℕ

/-- `run` (lines 98-161): reset the `s`/`y`/`rho` deques and the snapshots,
open one trajectory writer per name when a trajectory directory is given, run
the while loop, release cached GPU memory (a no-op here), close every writer
and only then rename each temporary file to its final name, and finally attach
the loop body's local `energy`/`forces` to the returned batch — a read that
raises `UnboundLocalError` when the loop body never executed.
`initState` is the state at line 121: fresh histories and snapshots, an all
false converged mask, the writers just opened, no evaluation done yet. -/
def initState (o : Optimizable) (P : Params) (pos0 : List Vec3) : LoopState :=
  ⟨pos0, List.replicate o.bidx.length false, false, [], [], [], none, none, none,
    (if P.trajDir then P.trajNames.map Event.openW else []), 0⟩

def run (o : Optimizable) (P : Params) (fmax : ℝ) (steps : ℕ) (pos0 : List Vec3) :
    RunResult :=
  let st := runLoop o P fmax steps steps 0 (initState o P pos0)
  let evts :=
    if P.trajDir then
      st.events ++ P.trajNames.map Event.close ++ P.trajNames.map Event.rename
    else st.events
  match st.lastEF with
  | some ef => ⟨.ok ⟨st.pos, ef.1, ef.2.take st.pos.length⟩, evts, st.evalCount⟩
  | none => ⟨.error .unboundLocalEnergy, evts, st.evalCount⟩

end

end LBFGSTorch

namespace LBFGSTorch

noncomputable section

lemma getD_map_of_lt {α β : Type} (f : α → β) (xs : List α) (k : ℕ) (d : α) (e : β)
    (h : k < xs.length) : (xs.map f).getD k e = f (xs.getD k d) := by
  induction xs generalizing k with
  | nil => simp at h
  | cons a as ih =>
    cases k with
    | zero => rfl
    | succ m =>
      simp only [List.map_cons, List.getD_cons_succ]
      exact ih m (by simpa using h)

/-- On the last budgeted iteration (and hence in particular when
`steps = iteration + 1`) the loop body evaluates the model once, binds the
`energy`/`forces` locals, and does not move any position. -/
lemma runBody_last_iteration (o : Optimizable) (P : Params) (fmax : ℝ)
    (steps iteration : ℕ) (st : LoopState)
    (h : ¬ ((iteration : ℤ) < (steps : ℤ) - 1)) :
    (runBody o P fmax steps iteration st).pos = st.pos ∧
    (runBody o P fmax steps iteration st).lastEF =
      some ((check_convergence o fmax st.evalCount st.pos).2.1,
        (check_convergence o fmax st.evalCount st.pos).2.2) ∧
    (runBody o P fmax steps iteration st).evalCount = st.evalCount + 1 := by
  unfold runBody
  rw [if_neg (fun hc => h hc.2)]
  refine ⟨?_, ?_, ?_⟩
  · rw [apply_ite LoopState.pos]
    simp
  · rw [apply_ite LoopState.lastEF]
    simp
  · rw [apply_ite LoopState.evalCount]
    simp

lemma run_result_of_lastEF_some (o : Optimizable) (P : Params) (fmax : ℝ)
    (steps : ℕ) (pos0 : List Vec3) (ef : List ℝ × List Vec3)
    (h : (runLoop o P fmax steps steps 0 (initState o P pos0)).lastEF = some ef) :
    (run o P fmax steps pos0).result =
      .ok ⟨(runLoop o P fmax steps steps 0 (initState o P pos0)).pos, ef.1,
        ef.2.take (runLoop o P fmax steps steps 0 (initState o P pos0)).pos.length⟩ := by
  simp only [run]
  rw [h]

lemma run_result_of_lastEF_none (o : Optimizable) (P : Params) (fmax : ℝ)
    (steps : ℕ) (pos0 : List Vec3)
    (h : (runLoop o P fmax steps steps 0 (initState o P pos0)).lastEF = none) :
    (run o P fmax steps pos0).result = .error .unboundLocalEnergy := by
  simp only [run]
  rw [h]

lemma run_evalCount (o : Optimizable) (P : Params) (fmax : ℝ) (steps : ℕ)
    (pos0 : List Vec3) :
    (run o P fmax steps pos0).evalCount =
      (runLoop o P fmax steps steps 0 (initState o P pos0)).evalCount := by
  simp only [run]
  rcases h : (runLoop o P fmax steps steps 0 (initState o P pos0)).lastEF with _ | ef <;>
    rfl

lemma run_events (o : Optimizable) (P : Params) (fmax : ℝ) (steps : ℕ)
    (pos0 : List Vec3) :
    (run o P fmax steps pos0).events =
      if P.trajDir then
        (runLoop o P fmax steps steps 0 (initState o P pos0)).events ++
          P.trajNames.map Event.close ++ P.trajNames.map Event.rename
      else (runLoop o P fmax steps steps 0 (initState o P pos0)).events := by
  simp only [run]
  rcases h : (runLoop o P fmax steps steps 0 (initState o P pos0)).lastEF with _ | ef <;>
    rfl

/-- C2 (amended): calling `run` with `steps = 0` never evaluates the model and
fails (the `energy` local is read while unbound) rather than returning the
batch; the behaviour the claim describes — the initial batch returned with
energies and forces evaluated exactly once and attached, and no position
changed — occurs at `steps = 1`, for every model and batch. -/
theorem run_steps_zero_errors_steps_one_returns (o : Optimizable) (P : Params)
    (fmax : ℝ) (pos0 : List Vec3) :
    ((run o P fmax 0 pos0).result = .error .unboundLocalEnergy ∧
      (run o P fmax 0 pos0).evalCount = 0) ∧
    ((run o P fmax 1 pos0).result =
        .ok ⟨pos0, (o.predict 0 pos0).energies,
          (o.predict 0 pos0).forces.take pos0.length⟩ ∧
      (run o P fmax 1 pos0).evalCount = 1) := by
  have hloop0 : runLoop o P fmax 0 0 0 (initState o P pos0) = initState o P pos0 := rfl
  have hloop1 : runLoop o P fmax 1 1 0 (initState o P pos0)
      = runBody o P fmax 1 0 (initState o P pos0) := by
    show (if 0 < 1 ∧ (initState o P pos0).converged = false then
        runLoop o P fmax 1 0 1 (runBody o P fmax 1 0 (initState o P pos0))
      else initState o P pos0) = _
    rw [if_pos ⟨Nat.zero_lt_one, rfl⟩]
    rfl
  obtain ⟨hpos, hef, hcount⟩ :=
    runBody_last_iteration o P fmax 1 0 (initState o P pos0) (by norm_num)
  refine ⟨⟨?_, ?_⟩, ?_, ?_⟩
  · exact run_result_of_lastEF_none o P fmax 0 pos0 (by rw [hloop0]; rfl)
  · rw [run_evalCount, hloop0]
    rfl
  · have hef' : (runLoop o P fmax 1 1 0 (initState o P pos0)).lastEF =
        some ((o.predict 0 pos0).energies, (o.predict 0 pos0).forces) := by
      rw [hloop1, hef]
      rfl
    rw [run_result_of_lastEF_some o P fmax 1 pos0 _ hef', hloop1, hpos]
    rfl
  · rw [run_evalCount, hloop1, hcount]
    rfl

/-- A one-atom, one-system batch whose model reports a constant prediction. -/
def oW1 : Optimizable := ⟨[0], [1], fun _ _ => ⟨[1], [(1, 0, 0)], [1]⟩⟩

/-- The constructor-default LBFGS configuration with no trajectory output. -/
def pW1 : Params := ⟨0.01, 100, 0.25, 100, true, false, [], true⟩

/-- The constructor-default LBFGS configuration with a trajectory directory
and one trajectory name. -/
def pW2 : Params := ⟨0.01, 100, 0.25, 100, true, true, ["sysA"], true⟩

/-- C2 (counterexample): at `steps = 0` the claim fails — `run` does not
return the initial batch with one evaluation; it performs zero model
evaluations and aborts reading the unbound `energy` local. -/
theorem run_steps_zero_counterexample :
    (run oW1 pW1 (1 / 20) 0 [((5 : ℝ), 5, 5)]).result = .error .unboundLocalEnergy ∧
    (run oW1 pW1 (1 / 20) 0 [((5 : ℝ), 5, 5)]).evalCount = 0 :=
  ⟨rfl, rfl⟩

lemma step_events (o : Optimizable) (P : Params) (iteration : ℕ)
    (forces : List Vec3) (updateMask : List Bool) (st : LoopState) :
    (step o P iteration forces updateMask st).events = st.events := by
  simp only [step]
  rw [apply_ite LoopState.events]
  simp

lemma writeEvents_writes (o : Optimizable) (P : Params) (um : List Bool) :
    ∀ e ∈ writeEvents o P um, ∃ n, e = Event.write n := by
  intro e he
  unfold writeEvents at he
  rw [List.mem_filterMap] at he
  obtain ⟨a, _, ha⟩ := he
  split at ha
  · exact ⟨a.1, ((Option.some.injEq _ _).mp ha).symm⟩
  · exact absurd ha (by simp)

lemma runBody_events (o : Optimizable) (P : Params) (fmax : ℝ) (steps iteration : ℕ)
    (st : LoopState) :
    ∃ ws, (runBody o P fmax steps iteration st).events = st.events ++ ws ∧
      ∀ e ∈ ws, ∃ n, e = Event.write n := by
  simp only [runBody]
  split
  · rw [step_events]
    split
    · exact ⟨_, rfl, writeEvents_writes o P _⟩
    · exact ⟨[], by simp, by simp⟩
  · split
    · exact ⟨_, rfl, writeEvents_writes o P _⟩
    · exact ⟨[], by simp, by simp⟩

lemma runLoop_events (o : Optimizable) (P : Params) (fmax : ℝ) (steps : ℕ) :
    ∀ fuel iteration st,
      ∃ ws, (runLoop o P fmax steps fuel iteration st).events = st.events ++ ws ∧
        ∀ e ∈ ws, ∃ n, e = Event.write n := by
  intro fuel
  induction fuel with
  | zero => exact fun it st => ⟨[], by simp [runLoop], by simp⟩
  | succ f ih =>
    intro it st
    simp only [runLoop]
    split
    · obtain ⟨ws1, hw1, ho1⟩ := runBody_events o P fmax steps it st
      obtain ⟨ws2, hw2, ho2⟩ := ih (it + 1) (runBody o P fmax steps it st)
      refine ⟨ws1 ++ ws2, by rw [hw2, hw1, List.append_assoc], fun e he => ?_⟩
      rcases List.mem_append.mp he with hm | hm
      exacts [ho1 e hm, ho2 e hm]
    · exact ⟨[], by simp, by simp⟩

/-- C8: when a trajectory directory is given, every `run` emits exactly the
event sequence "all writers opened, then only snapshot writes, then every
writer closed, then every temporary file renamed" — on every exit path
(convergence, step-budget exhaustion, the degenerate-step short-circuit, and
even the unbound-`energy` abort at `steps = 0`, since the close and rename at
lines 150-155 precede the line-157 read): each writer opened at run start is
closed, and each rename happens only after its writer's close. -/
theorem trajectory_writers_closed_then_renamed (o : Optimizable) (P : Params)
    (fmax : ℝ) (steps : ℕ) (pos0 : List Vec3) (h : P.trajDir = true) :
    ∃ ws, (run o P fmax steps pos0).events =
        P.trajNames.map Event.openW ++ ws ++ P.trajNames.map Event.close ++
          P.trajNames.map Event.rename ∧
      ∀ e ∈ ws, ∃ n, e = Event.write n := by
  obtain ⟨ws, hw, ho⟩ := runLoop_events o P fmax steps steps 0 (initState o P pos0)
  refine ⟨ws, ?_, ho⟩
  rw [run_events, if_pos h, hw]
  have hinit : (initState o P pos0).events = P.trajNames.map Event.openW := by
    simp [initState, h]
  rw [hinit]

theorem trajectory_writers_closed_then_renamed_witness :
    pW2.trajDir = true ∧
    ∃ ws, (run oW1 pW2 (1 / 20) 0 [((5 : ℝ), 5, 5)]).events =
        pW2.trajNames.map Event.openW ++ ws ++ pW2.trajNames.map Event.close ++
          pW2.trajNames.map Event.rename ∧
      ∀ e ∈ ws, ∃ n, e = Event.write n :=
  ⟨rfl, trajectory_writers_closed_then_renamed oW1 pW2 (1 / 20) 0 [((5 : ℝ), 5, 5)] rfl⟩

/-- A reachable history state at `iteration > 0`: the model reported the same
forces `(1/2, 0, 0)` at two consecutive evaluations (`y0 = 0`) while the atom
moved from the origin to `(1, 0, 0)` (`s0 = (1, 0, 0)`), so the segmented dot
`_batched_dot(y0, s0)` of the single system is zero. -/
lemma batchedDot_oW1_zero :
    _batched_dot oW1
      ((List.zipWith v3sub [((1 : ℝ) / 2, 0, 0)] [((1 : ℝ) / 2, 0, 0)]).map v3neg)
      (List.zipWith v3sub [((1 : ℝ), 0, 0)] [((0 : ℝ), 0, 0)]) = [0] := by
  simp [_batched_dot, segSum, oW1, v3sub, v3neg, dot3, List.range_succ]

/-- C3 (counterexample): in a reachable state whose segmented dot
`_batched_dot(y0, s0)` is zero, the appended `rho` entry is the unguarded
`1.0 / 0.0`, a non-finite value (`none`) — not the finite `1.0 / 1.0` that the
claimed replacement of the zero denominator by the neutral 1.0 would give, so
the division-by-zero branch is reached. -/
theorem rho_zero_denominator_counterexample :
    _batched_dot oW1
        ((List.zipWith v3sub [((1 : ℝ) / 2, 0, 0)] [((1 : ℝ) / 2, 0, 0)]).map v3neg)
        (List.zipWith v3sub [((1 : ℝ), 0, 0)] [((0 : ℝ), 0, 0)]) = [0] ∧
    rhoAppended oW1 [((1 : ℝ), 0, 0)] [((0 : ℝ), 0, 0)] [((1 : ℝ) / 2, 0, 0)]
      [((1 : ℝ) / 2, 0, 0)] = [none] := by
  refine ⟨batchedDot_oW1_zero, ?_⟩
  simp only [rhoAppended]
  rw [batchedDot_oW1_zero]
  simp

/-- C3 (amended): the history update computes `rho = 1 / _batched_dot(y0, s0)`
directly, with no zero-denominator replacement: for every state and every
system `k` whose segmented dot of the negated force difference `y0` with the
displacement `s0` is zero, the appended `rho` entry for `k` is the non-finite
result (`none`) of a division by zero, and that value is what enters the
two-loop recursion. -/
theorem rho_zero_denominator_unguarded (o : Optimizable) (r r0 forces f0 : List Vec3)
    (k : ℕ) (hk : k < o.natoms.length)
    (h : (_batched_dot o ((List.zipWith v3sub forces f0).map v3neg)
        (List.zipWith v3sub r r0)).getD k 1 = 0) :
    (rhoAppended o r r0 forces f0).getD k (some 0) = none := by
  simp only [rhoAppended]
  have hlen : (_batched_dot o ((List.zipWith v3sub forces f0).map v3neg)
      (List.zipWith v3sub r r0)).length = o.natoms.length := by
    simp [_batched_dot, segSum]
  rw [getD_map_of_lt _ _ k 1 _ (by rw [hlen]; exact hk), h]
  simp

theorem rho_zero_denominator_unguarded_witness :
    (0 < oW1.natoms.length ∧
      (_batched_dot oW1
          ((List.zipWith v3sub [((1 : ℝ) / 2, 0, 0)] [((1 : ℝ) / 2, 0, 0)]).map v3neg)
          (List.zipWith v3sub [((1 : ℝ), 0, 0)] [((0 : ℝ), 0, 0)])).getD 0 1 = 0) ∧
    (rhoAppended oW1 [((1 : ℝ), 0, 0)] [((0 : ℝ), 0, 0)] [((1 : ℝ) / 2, 0, 0)]
      [((1 : ℝ) / 2, 0, 0)]).getD 0 (some 0) = none :=
  ⟨⟨by simp [oW1], by rw [batchedDot_oW1_zero]; rfl⟩,
    rho_zero_denominator_unguarded oW1 [((1 : ℝ), 0, 0)] [((0 : ℝ), 0, 0)]
      [((1 : ℝ) / 2, 0, 0)] [((1 : ℝ) / 2, 0, 0)] 0 (by simp [oW1])
      (by rw [batchedDot_oW1_zero]; rfl)⟩

lemma norm3_pyth (x y c : ℝ) (hc : 0 ≤ c) (h : x ^ 2 + y ^ 2 = c ^ 2) :
    norm3 (x, y, 0) = c := by
  show Real.sqrt (x ^ 2 + y ^ 2 + 0 ^ 2) = c
  rw [show x ^ 2 + y ^ 2 + (0 : ℝ) ^ 2 = c ^ 2 by rw [← h]; ring, Real.sqrt_sq hc]

lemma norm3_smul (a : ℝ) (v : Vec3) : norm3 (v3smul a v) = |a| * norm3 v := by
  show Real.sqrt ((a * v.1) ^ 2 + (a * v.2.1) ^ 2 + (a * v.2.2) ^ 2) = _
  rw [show (a * v.1) ^ 2 + (a * v.2.1) ^ 2 + (a * v.2.2) ^ 2
      = a ^ 2 * (v.1 ^ 2 + v.2.1 ^ 2 + v.2.2 ^ 2) by ring,
    Real.sqrt_mul (sq_nonneg a), Real.sqrt_sq_eq_abs]
  rfl

/-- The two-system batch of the C6 scenario: atom counts `[2, 3]`. -/
def oC6 : Optimizable := ⟨[0, 0, 1, 1, 1], [2, 3], fun _ _ => ⟨[], [], []⟩⟩

/-- Proposed displacement rows exceeding `maxstep = 0.01` in system 0 only. -/
def drC6 : List Vec3 :=
  [(0.03, 0.04, 0), (0.02, 0, 0), (0.003, 0.004, 0), (0.001, 0, 0), (0, 0.002, 0)]

/-- `drC6` with system 0's rows replaced by unrelated ones. -/
def drC6alt : List Vec3 :=
  [(0.2, 0, 0), (0, 0, 0), (0.003, 0.004, 0), (0.001, 0, 0), (0, 0.002, 0)]

/-- C6: in the two-system batch with atom counts `[2, 3]` where the proposed
per-atom displacement exceeds `maxstep` only in system 0 (first conjunct), the
clamped-and-damped step gives system 0 a max per-atom displacement within
`1e-6` of `maxstep * damping` (second conjunct), and system 1's rows are
unchanged when system 0's rows are replaced arbitrarily — each system's scale
factor depends only on its own longest atomic displacement (third
conjunct). -/
theorem determine_step_two_system_clamp :
    (pW1.maxstep < norm3 (drC6.getD 0 (0, 0, 0)) ∧
      pW1.maxstep < norm3 (drC6.getD 1 (0, 0, 0)) ∧
      norm3 (drC6.getD 2 (0, 0, 0)) ≤ pW1.maxstep ∧
      norm3 (drC6.getD 3 (0, 0, 0)) ≤ pW1.maxstep ∧
      norm3 (drC6.getD 4 (0, 0, 0)) ≤ pW1.maxstep) ∧
    |max (norm3 ((_determine_step oC6 pW1 drC6).getD 0 (0, 0, 0)))
        (norm3 ((_determine_step oC6 pW1 drC6).getD 1 (0, 0, 0))) -
      pW1.maxstep * pW1.damping| ≤ 1e-6 ∧
    (_determine_step oC6 pW1 drC6).drop 2 = (_determine_step oC6 pW1 drC6alt).drop 2 := by
  have h0 : norm3 ((0.03 : ℝ), 0.04, 0) = 0.05 :=
    norm3_pyth _ _ _ (by norm_num) (by norm_num)
  have h1 : norm3 ((0.02 : ℝ), 0, 0) = 0.02 :=
    norm3_pyth _ _ _ (by norm_num) (by norm_num)
  have h2 : norm3 ((0.003 : ℝ), 0.004, 0) = 0.005 :=
    norm3_pyth _ _ _ (by norm_num) (by norm_num)
  have h3 : norm3 ((0.001 : ℝ), 0, 0) = 0.001 :=
    norm3_pyth _ _ _ (by norm_num) (by norm_num)
  have h4 : norm3 ((0 : ℝ), 0.002, 0) = 0.002 :=
    norm3_pyth _ _ _ (by norm_num) (by norm_num)
  have h5 : norm3 ((0.2 : ℝ), 0, 0) = 0.2 :=
    norm3_pyth _ _ _ (by norm_num) (by norm_num)
  have h6 : norm3 ((0 : ℝ), 0, 0) = 0 :=
    norm3_pyth _ _ _ (by norm_num) (by norm_num)
  have hm0 : max (max (0 : ℝ) 0.05) 0.02 = 0.05 := by
    rw [max_eq_right (by norm_num : (0 : ℝ) ≤ 0.05)]
    exact max_eq_left (by norm_num)
  have hm1 : max (max (max (0 : ℝ) 0.005) 0.001) 0.002 = 0.005 := by
    rw [max_eq_right (by norm_num : (0 : ℝ) ≤ 0.005),
      max_eq_left (by norm_num : (0.001 : ℝ) ≤ 0.005)]
    exact max_eq_left (by norm_num)
  have hm2 : max (max (0 : ℝ) 0.2) 0 = 0.2 := by
    rw [max_eq_right (by norm_num : (0 : ℝ) ≤ 0.2)]
    exact max_eq_left (by norm_num)
  have hm2b : max (0 : ℝ) 0.2 = 0.2 := max_eq_right (by norm_num)
  have hm2c : max (0.2 : ℝ) 0 = 0.2 := max_eq_left (by norm_num)
  have hmin0 : min (0.05 : ℝ) 0.01 = 0.01 := min_eq_right (by norm_num)
  have hmin1 : min (0.005 : ℝ) 0.01 = 0.005 := min_eq_left (by norm_num)
  have hmin2 : min (0.2 : ℝ) 0.01 = 0.01 := min_eq_right (by norm_num)
  have hds : _determine_step oC6 pW1 drC6 =
      [v3smul 0.25 (v3smul ((0.05 + 1e-7)⁻¹ * 0.01) (0.03, 0.04, 0)),
       v3smul 0.25 (v3smul ((0.05 + 1e-7)⁻¹ * 0.01) (0.02, 0, 0)),
       v3smul 0.25 (v3smul ((0.005 + 1e-7)⁻¹ * 0.005) (0.003, 0.004, 0)),
       v3smul 0.25 (v3smul ((0.005 + 1e-7)⁻¹ * 0.005) (0.001, 0, 0)),
       v3smul 0.25 (v3smul ((0.005 + 1e-7)⁻¹ * 0.005) (0, 0.002, 0))] := by
    simp [_determine_step, oC6, pW1, drC6, segMax, gather, List.range_succ,
      h0, h1, h2, h3, h4, hm0, hm1, hmin0, hmin1, -Prod.mk_zero_zero]
  have hds2 : _determine_step oC6 pW1 drC6alt =
      [v3smul 0.25 (v3smul ((0.2 + 1e-7)⁻¹ * 0.01) (0.2, 0, 0)),
       v3smul 0.25 (v3smul ((0.2 + 1e-7)⁻¹ * 0.01) (0, 0, 0)),
       v3smul 0.25 (v3smul ((0.005 + 1e-7)⁻¹ * 0.005) (0.003, 0.004, 0)),
       v3smul 0.25 (v3smul ((0.005 + 1e-7)⁻¹ * 0.005) (0.001, 0, 0)),
       v3smul 0.25 (v3smul ((0.005 + 1e-7)⁻¹ * 0.005) (0, 0.002, 0))] := by
    simp [_determine_step, oC6, pW1, drC6alt, segMax, gather, List.range_succ,
      h5, h6, h2, h3, h4, hm2, hm2b, hm2c, hm1, hmin2, hmin1, -Prod.mk_zero_zero]
  refine ⟨?_, ?_, ?_⟩
  · simp only [drC6, List.getD_cons_zero, List.getD_cons_succ, h0, h1, h2, h3, h4, pW1]
    norm_num
  · have hg0 : (_determine_step oC6 pW1 drC6).getD 0 (0, 0, 0)
        = v3smul 0.25 (v3smul ((0.05 + 1e-7)⁻¹ * 0.01) (0.03, 0.04, 0)) := by
      rw [hds]
      rfl
    have hg1 : (_determine_step oC6 pW1 drC6).getD 1 (0, 0, 0)
        = v3smul 0.25 (v3smul ((0.05 + 1e-7)⁻¹ * 0.01) (0.02, 0, 0)) := by
      rw [hds]
      rfl
    rw [hg0, hg1]
    simp only [norm3_smul, h0, h1]
    rw [abs_of_nonneg (by norm_num : (0 : ℝ) ≤ 0.25),
      abs_of_nonneg (by positivity : (0 : ℝ) ≤ (0.05 + 1e-7)⁻¹ * 0.01)]
    rw [max_eq_left (by norm_num)]
    simp only [pW1]
    exact abs_le.mpr ⟨by norm_num, by norm_num⟩
  · rw [hds, hds2]
    rfl

/-- The C1 failing input: two one-atom systems.  The model constantly reports
system 0 already below `fmax = 1/20` (max force 0.001, zero force row) and
system 1 far above it (max force 1, force row `(0.04, 0, 0)`). -/
def oC1 : Optimizable :=
  ⟨[0, 1], [1, 1], fun _ _ => ⟨[-1, -2], [(0, 0, 0), (0.04, 0, 0)], [0.001, 1]⟩⟩

/-- Initial positions of the two atoms. -/
def posC1 : List Vec3 := [(5, 5, 5), (7, 7, 7)]

/-- The loop state after the iteration-0 convergence check: system 0 converged,
system 1 not, one evaluation done, no step yet. -/
def st1C1 : LoopState :=
  ⟨posC1, [true, false], false, [], [], [], none, none,
    some ([-1, -2], [(0, 0, 0), (0.04, 0, 0)]), [], 1⟩

/-- The loop state after the iteration-0 L-BFGS step: the update-masked
`torch.where` wrote 0.0 into the converged system's absolute position. -/
def st2C1 : LoopState :=
  ⟨[(0, 0, 0), (7 + 2 / 20005, 7, 7)], [true, false], false, [], [], [],
    some posC1, some [(0, 0, 0), (0.04, 0, 0)],
    some ([-1, -2], [(0, 0, 0), (0.04, 0, 0)]), [], 1⟩

lemma check_convergence_oC1 :
    check_convergence oC1 (1 / 20) 0 posC1 = ([true, false], [-1, -2],
      [(0, 0, 0), (0.04, 0, 0)]) := by
  have hd1 : decide ((0.001 : ℝ) < 1 / 20) = true := decide_eq_true (by norm_num)
  have hd2 : decide ((1 : ℝ) < 1 / 20) = false := decide_eq_false (by norm_num)
  simp [check_convergence, oC1, posC1, gather, hd1, hd2, -Prod.mk_zero_zero]
  norm_num

lemma determine_step_oC1 :
    _determine_step oC1 pW1 [(0, 0, 0), (0.0004, 0, 0)]
      = [(0, 0, 0), (2 / 20005, 0, 0)] := by
  have h6 : norm3 ((0 : ℝ), 0, 0) = 0 := norm3_pyth _ _ _ (by norm_num) (by norm_num)
  have h7 : norm3 ((0.0004 : ℝ), 0, 0) = 0.0004 :=
    norm3_pyth _ _ _ (by norm_num) (by norm_num)
  have hma : max (0 : ℝ) 0 = 0 := max_self 0
  have hmb : max (0 : ℝ) 0.0004 = 0.0004 := max_eq_right (by norm_num)
  have hna : min (0 : ℝ) 0.01 = 0 := min_eq_left (by norm_num)
  have hnb : min (0.0004 : ℝ) 0.01 = 0.0004 := min_eq_left (by norm_num)
  have hrow0 : v3smul 0.25 (v3smul ((0 + 1e-7)⁻¹ * 0) ((0 : ℝ), 0, 0))
      = (((0 : ℝ), 0, 0) : Vec3) := by
    norm_num [v3smul, -Prod.mk_zero_zero]
  have hrow1 : v3smul 0.25 (v3smul ((0.0004 + 1e-7)⁻¹ * 0.0004) ((0.0004 : ℝ), 0, 0))
      = ((2 / 20005 : ℝ), 0, 0) := by
    norm_num [v3smul, -Prod.mk_zero_zero]
  simp [_determine_step, oC1, pW1, segMax, gather, List.range_succ, h6, h7,
    hma, hmb, hna, hnb, hrow0, hrow1, -Prod.mk_zero_zero]
  norm_num [v3smul, -Prod.mk_zero_zero]

lemma step_oC1 :
    step oC1 pW1 0 [(0, 0, 0), (0.04, 0, 0)] [false, true] st1C1 = st2C1 := by
  have hp : ((([(((0 : ℝ), 0, 0) : Vec3), ((0.04 : ℝ), 0, 0)].map v3neg).map
      (v3smul (1 / pW1.alpha))).map v3neg) = [(0, 0, 0), (0.0004, 0, 0)] := by
    norm_num [v3neg, v3smul, pW1, -Prod.mk_zero_zero]
  have habs : ((([(((0 : ℝ), 0, 0) : Vec3), ((2 / 20005 : ℝ), 0, 0)]).map
      v3maxAbs).foldl max 0) = 2 / 20005 := by
    norm_num [v3maxAbs, abs_of_nonneg, -Prod.mk_zero_zero]
  simp only [step, st1C1, Nat.lt_irrefl, if_false, Nat.min_zero, twoLoopDown,
    twoLoopUp, min_zero]
  rw [hp, determine_step_oC1, habs]
  rw [if_neg (by norm_num : ¬ ((2 / 20005 : ℝ) < 1e-7))]
  simp only [set_positions, st2C1, posC1, show pW1.maskConverged = true from rfl]
  norm_num [v3add, List.zipWith, -Prod.mk_zero_zero]

lemma runBody0_oC1 :
    runBody oC1 pW1 (1 / 20) 2 0 (initState oC1 pW1 posC1) = st2C1 := by
  have hinit : initState oC1 pW1 posC1
      = ⟨posC1, [false, false], false, [], [], [], none, none, none, [], 0⟩ := rfl
  rw [hinit]
  simp only [runBody, check_convergence_oC1]
  simp [show pW1.trajDir = false from rfl, show ((0 : ℤ) < 2 - 1) from by norm_num,
    -Prod.mk_zero_zero]
  exact step_oC1

lemma runLoop_oC1 :
    runLoop oC1 pW1 (1 / 20) 2 2 0 (initState oC1 pW1 posC1)
      = runBody oC1 pW1 (1 / 20) 2 1 st2C1 := by
  show (if 0 < 2 ∧ (initState oC1 pW1 posC1).converged = false then
      runLoop oC1 pW1 (1 / 20) 2 1 1
        (runBody oC1 pW1 (1 / 20) 2 0 (initState oC1 pW1 posC1))
    else initState oC1 pW1 posC1) = _
  rw [if_pos ⟨by norm_num, rfl⟩, runBody0_oC1]
  show (if 1 < 2 ∧ st2C1.converged = false then
      runLoop oC1 pW1 (1 / 20) 2 0 2 (runBody oC1 pW1 (1 / 20) 2 1 st2C1)
    else st2C1) = _
  rw [if_pos ⟨by norm_num, rfl⟩]
  rfl

/-- C1: the frozen-after-converged property fails on the code.  In the batch
`oC1`, system 0's max force (0.001) is below `fmax = 1/20` already at
iteration 0 (first conjunct) and its position then is `(5, 5, 5)` (third
conjunct); yet after `run` with `steps = 2`, its position in the returned
batch is `(0, 0, 0)` (second conjunct), not `(5, 5, 5)` (fourth conjunct):
`set_positions` applies `torch.where(update_mask, ·, 0.0)` to the absolute
positions `r + dr` handed to it by `step`, so the masked (converged) system is
moved to the origin instead of being left at its converged position. -/
theorem converged_system_position_zeroed :
    (check_convergence oC1 (1 / 20) 0 posC1).1 = [true, false] ∧
    (∃ b, (run oC1 pW1 (1 / 20) 2 posC1).result = .ok b ∧
      b.pos.getD 0 (9, 9, 9) = ((0 : ℝ), 0, 0)) ∧
    posC1.getD 0 (9, 9, 9) = ((5 : ℝ), 5, 5) ∧
    (((0 : ℝ), (0 : ℝ), (0 : ℝ)) : Vec3) ≠ ((5 : ℝ), (5 : ℝ), (5 : ℝ)) := by
  obtain ⟨hpos, hef, hcount⟩ :=
    runBody_last_iteration oC1 pW1 (1 / 20) 2 1 st2C1 (by norm_num)
  have hef2 : (runLoop oC1 pW1 (1 / 20) 2 2 0 (initState oC1 pW1 posC1)).lastEF =
      some ((check_convergence oC1 (1 / 20) st2C1.evalCount st2C1.pos).2.1,
        (check_convergence oC1 (1 / 20) st2C1.evalCount st2C1.pos).2.2) := by
    rw [runLoop_oC1, hef]
  refine ⟨by rw [check_convergence_oC1], ?_, rfl,
    fun h => absurd (congrArg Prod.fst h) (by norm_num)⟩
  refine ⟨_, run_result_of_lastEF_some oC1 pW1 (1 / 20) 2 posC1 _ hef2, ?_⟩
  show (runLoop oC1 pW1 (1 / 20) 2 2 0 (initState oC1 pW1 posC1)).pos.getD 0 (9, 9, 9)
      = ((0 : ℝ), 0, 0)
  rw [runLoop_oC1, hpos]
  rfl

end

end LBFGSTorch
